import Mathlib

/-!
Verification of `TABULATED/table_gen.py`, a Lennard-Jones interaction-table
generator.  The script is embedded shallowly over exact rationals:

* Python floats are modelled as `ℚ` (every numeric literal in the script is a
  decimal fraction, hence rational); `float` infinity, produced only by the
  `r == 0` branch of `compute_lennard_jones`, is modelled by the extra
  constructor `LJVal.inf`.
* `math.sqrt` is modelled by Mathlib's computable `Rat.sqrt`, which agrees with
  the mathematical square root on every perfect square (the only inputs whose
  exact value any property below depends on).  `math.sqrt` raises `ValueError`
  on a negative argument; `lorentz_berthelot` therefore returns an `Option`,
  with `none` for the raised exception.
* The output file is modelled as the list of lines written, kept structured
  (`OutLine`) together with the rendering function `renderLine` that models the
  Python format string of each `f.write` call; `fileContent` is the final file
  text.  Console `print` calls are I/O only and carry no table data.
-/

namespace TableGen

/-- An atom definition, as in the script's configuration dictionaries
`{"name": ..., "epsilon": ..., "sigma": ...}`. -/
structure Atom where
  name : String
  epsilon : ℚ
  sigma : ℚ
deriving DecidableEq, Repr

instance : Inhabited Atom := ⟨⟨"", 0, 0⟩⟩

/-- `lorentz_berthelot(atom1, atom2)`: arithmetic mean for sigma, geometric mean
(`math.sqrt`) for epsilon.  `math.sqrt` raises `ValueError` on a negative
argument, modelled by `none`; otherwise the mixed pair `(sigma_mix, epsilon_mix)`
is returned. -/
def lorentz_berthelot (atom1 atom2 : Atom) : Option (ℚ × ℚ) :=
  if atom1.epsilon * atom2.epsilon < 0 then none
  else some ((atom1.sigma + atom2.sigma) / 2, Rat.sqrt (atom1.epsilon * atom2.epsilon))

/-- A Python float value appearing in the table: either finite (an exact
rational) or the infinity produced by `float('inf')`. -/
inductive LJVal where
  | inf : LJVal
  | fin : ℚ → LJVal
deriving DecidableEq, Repr

/-- `compute_lennard_jones(epsilon, sigma, r)`: returns `(inf, inf)` when
`r == 0`, otherwise the energy `E = 4*epsilon*(sr12 - sr6)` and force
`F = (24*epsilon/r)*(2*sr12 - sr6)` with `sr6 = (sigma/r)**6`, `sr12 = sr6**2`. -/
def compute_lennard_jones (epsilon sigma r : ℚ) : LJVal × LJVal :=
  if r = 0 then (LJVal.inf, LJVal.inf)
  else
    let sr6 := (sigma / r) ^ 6
    let sr12 := sr6 ^ 2
    (LJVal.fin (4 * epsilon * (sr12 - sr6)),
     LJVal.fin (24 * epsilon / r * (2 * sr12 - sr6)))

/-- Rounding of `Python` float formatting: round to the nearest integer, ties to
the even integer (the IEEE-754 rounding used by `format`). -/
def roundHalfEven (q : ℚ) : ℤ :=
  if q - ⌊q⌋ < 1 / 2 then ⌊q⌋
  else if 1 / 2 < q - ⌊q⌋ then ⌊q⌋ + 1
  else if ⌊q⌋ % 2 = 0 then ⌊q⌋ else ⌊q⌋ + 1

/-- Decimal digits of `m`, left-padded with zeros to `p` digits. -/
def zeroPad (p : ℕ) (m : ℕ) : String :=
  String.mk (List.replicate (p - (toString m).length) '0') ++ toString m

/-- Fixed-point rendering with `p` decimal places (`p > 0`), as Python's
`format(x, '.pf')`. -/
def fixedRepr (p : ℕ) (x : ℚ) : String :=
  (if roundHalfEven (x * 10 ^ p) < 0 then ("-") else ("")) ++
    toString ((roundHalfEven (x * 10 ^ p)).natAbs / 10 ^ p) ++ ("." : String) ++
    zeroPad p ((roundHalfEven (x * 10 ^ p)).natAbs % 10 ^ p)

/-- Left-justify `s` in a field of minimum width `w` (Python `'<w'`): pad on the
right with spaces, never truncate. -/
def ljust (w : ℕ) (s : String) : String :=
  s ++ String.mk (List.replicate (w - s.length) ' ')

/-- Python `format(x, '<wp.f')` for a finite float. -/
def pyFmtFixed (w p : ℕ) (x : ℚ) : String := ljust w (fixedRepr p x)

/-- Python `format(x, '<wp.f')` for a possibly infinite float: `float('inf')`
formats as `inf`, padded to the field width. -/
def pyFmtVal (w p : ℕ) : LJVal → String
  | LJVal.inf => ljust w ("inf")
  | LJVal.fin x => pyFmtFixed w p x

/-- One line written to the output file by the active code path: a pair header
(`f.write(f"TYPE {pair_name}\n")`) or a data row
(`f.write(f"{current_r:<10.4f} {E:<15.6f} {F:<15.6f}\n")`). -/
inductive OutLine where
  | header : String → OutLine
  | row : ℚ → LJVal → LJVal → OutLine
deriving DecidableEq, Repr

/-- The text of one output line, following the format string of the
corresponding `f.write` call. -/
def renderLine : OutLine → String
  | OutLine.header pair_name => ("TYPE ") ++ pair_name
  | OutLine.row r E F =>
      pyFmtFixed 10 4 r ++ (" ") ++ pyFmtVal 15 6 E ++ (" ") ++ pyFmtVal 15 6 F

/-- The whole file: each line followed by the newline its `f.write` appends. -/
def fileContent (lines : List OutLine) : String :=
  String.join (lines.map (fun l => renderLine l ++ ("\n")))

/-- `itertools.combinations_with_replacement(l, 2)`, in its enumeration order:
the head paired with itself and every later element, then the pairs of the
tail. -/
def combinations_with_replacement2 {α : Type} : List α → List (α × α)
  | [] => []
  | x :: xs => (x :: xs).map (fun y => (x, y)) ++ combinations_with_replacement2 xs

/-- Python `int()` on a float: truncation toward zero. -/
def pytrunc (q : ℚ) : ℤ := if q < 0 then ⌈q⌉ else ⌊q⌋

/-- The script's `steps = int((end_r - start_r) / delta_r)`. -/
def stepsOf (start_r end_r delta_r : ℚ) : ℤ := pytrunc ((end_r - start_r) / delta_r)

/-- The per-pair data loop `for _ in range(steps + 1)`, carrying `current_r`:
a sample with `current_r <= 1e-10` is skipped but still advances the grid;
otherwise a data row is written and the grid advances. -/
def dataLoop (epsilon_ij sigma_ij delta_r : ℚ) : ℕ → ℚ → List OutLine
  | 0, _ => []
  | Nat.succ n, current_r =>
    if current_r ≤ 1e-10 then dataLoop epsilon_ij sigma_ij delta_r n (current_r + delta_r)
    else
      let EF := compute_lennard_jones epsilon_ij sigma_ij current_r
      OutLine.row current_r EF.1 EF.2 ::
        dataLoop epsilon_ij sigma_ij delta_r n (current_r + delta_r)

/-- The per-pair body of the writer loop: mix the parameters (propagating the
`math.sqrt` exception), write the `TYPE` header, then run the data loop
`range(steps + 1)` times starting at `start_r`. -/
def pairBlock (a1 a2 : Atom) (start_r delta_r : ℚ) (steps : ℤ) : Option (List OutLine) :=
  match lorentz_berthelot a1 a2 with
  | none => none
  | some si_ep =>
      some (OutLine.header (a1.name ++ a2.name) ::
        dataLoop si_ep.2 si_ep.1 delta_r (steps + 1).toNat start_r)

/-- The writer's `for a1, a2 in pairs` loop, concatenating the pair blocks and
propagating an exception from any block. -/
def writePairs (start_r delta_r : ℚ) (steps : ℤ) : List (Atom × Atom) → Option (List OutLine)
  | [] => some []
  | (a1, a2) :: rest =>
    match pairBlock a1 a2 start_r delta_r steps, writePairs start_r delta_r steps rest with
    | some b, some restLines => some (b ++ restLines)
    | _, _ => none

/-- `generate_interaction_tables(atoms_list, start_r, end_r, delta_r)`, returning
the lines written to the file.  `delta_r == 0` makes the very first statement
`int((end_r - start_r) / delta_r)` raise `ZeroDivisionError`, modelled by
`none`; a `math.sqrt` domain error inside the loop likewise yields `none`. -/
def generate_interaction_tables (atoms_list : List Atom) (start_r end_r delta_r : ℚ) :
    Option (List OutLine) :=
  if delta_r = 0 then none
  else writePairs start_r delta_r (stepsOf start_r end_r delta_r)
    (combinations_with_replacement2 atoms_list)

/-- The data row the loop writes at distance `r` (the `E, F = compute_lennard_jones(...)`
destructuring followed by the row `f.write`). -/
def rowAt (epsilon_ij sigma_ij r : ℚ) : OutLine :=
  OutLine.row r (compute_lennard_jones epsilon_ij sigma_ij r).1
    (compute_lennard_jones epsilon_ij sigma_ij r).2

/-- The pair name of a header line, `none` for a data row (used to collect the
`TYPE` lines of an output). -/
def headerName : OutLine → Option String
  | OutLine.header pair_name => some pair_name
  | OutLine.row _ _ _ => none

/-- The configuration section's atom list. -/
def atoms : List Atom :=
  [⟨"OW0", 107.0857, 3.1665⟩, ⟨"HW0", 0, 0⟩, ⟨"LP0", 0, 0⟩]

/-- Configuration: `start_dist = 0.01`. -/
def start_dist : ℚ := 0.01

/-- Configuration: `end_dist = 10.0`. -/
def end_dist : ℚ := 10.0

/-- Configuration: `delta_r = 0.01`. -/
def delta_r : ℚ := 0.01

theorem sqrtZeroQ : Rat.sqrt (0 : ℚ) = 0 := by decide

theorem filterMapSome {α β : Type} (f : α → β) :
    ∀ l : List α, (l.filterMap fun a => some (f a)) = l.map f := by
  intro l
  induction l with
  | nil => rfl
  | cons x xs ih => simp [List.filterMap_cons, ih]

theorem filterMapCongr {α β : Type} {f g : α → Option β} :
    ∀ l : List α, (∀ a ∈ l, f a = g a) → l.filterMap f = l.filterMap g := by
  intro l
  induction l with
  | nil => intro _; rfl
  | cons x xs ih =>
    intro h
    rw [List.filterMap_cons, List.filterMap_cons, h x (List.mem_cons_self x xs),
      ih fun a ha => h a (List.mem_cons_of_mem x ha)]

theorem dataLoop_zero (epsilon_ij sigma_ij delta_r r : ℚ) :
    dataLoop epsilon_ij sigma_ij delta_r 0 r = [] := rfl

theorem dataLoop_skip (epsilon_ij sigma_ij delta_r : ℚ) (n : ℕ) (r : ℚ)
    (h : r ≤ 1e-10) :
    dataLoop epsilon_ij sigma_ij delta_r (n + 1) r =
      dataLoop epsilon_ij sigma_ij delta_r n (r + delta_r) := by
  rw [dataLoop, if_pos h]

theorem dataLoop_emit (epsilon_ij sigma_ij delta_r : ℚ) (n : ℕ) (r : ℚ)
    (h : ¬ r ≤ 1e-10) :
    dataLoop epsilon_ij sigma_ij delta_r (n + 1) r =
      rowAt epsilon_ij sigma_ij r :: dataLoop epsilon_ij sigma_ij delta_r n (r + delta_r) := by
  rw [dataLoop, if_neg h]
  rfl

/-- Closed form of the data loop: the sample at iteration `k` sits at
`r0 + k * delta_r`, and is emitted exactly when it exceeds the `1e-10`
threshold. -/
theorem dataLoop_eq_filterMap (epsilon_ij sigma_ij delta_r : ℚ) :
    ∀ (n : ℕ) (r0 : ℚ),
      dataLoop epsilon_ij sigma_ij delta_r n r0 =
        (List.range n).filterMap fun k : ℕ =>
          if r0 + (k : ℚ) * delta_r ≤ 1e-10 then none
          else some (rowAt epsilon_ij sigma_ij (r0 + (k : ℚ) * delta_r)) := by
  intro n
  induction n with
  | zero => intro r0; rfl
  | succ n ih =>
    intro r0
    have hmap : ((List.range n).map Nat.succ).filterMap (fun k : ℕ =>
        if r0 + (k : ℚ) * delta_r ≤ 1e-10 then none
        else some (rowAt epsilon_ij sigma_ij (r0 + (k : ℚ) * delta_r))) =
        (List.range n).filterMap fun k : ℕ =>
          if (r0 + delta_r) + (k : ℚ) * delta_r ≤ 1e-10 then none
          else some (rowAt epsilon_ij sigma_ij ((r0 + delta_r) + (k : ℚ) * delta_r)) := by
      rw [List.filterMap_map]
      refine filterMapCongr _ fun k _ => ?_
      have hk : r0 + (Nat.succ k : ℕ) * delta_r = (r0 + delta_r) + k * delta_r := by
        push_cast
        ring
      simp only [Function.comp_apply, hk]
    rw [List.range_succ_eq_map, List.filterMap_cons]
    have h0 : r0 + ((0 : ℕ) : ℚ) * delta_r = r0 := by
      push_cast
      ring
    by_cases hr : r0 ≤ 1e-10
    · rw [dataLoop_skip _ _ _ _ _ hr, ih (r0 + delta_r), h0, if_pos hr, hmap]
    · rw [dataLoop_emit _ _ _ _ _ hr, ih (r0 + delta_r), h0, if_neg hr, hmap]

/-- When no sample of the loop falls at or below the threshold, the loop emits
one row per iteration. -/
theorem dataLoop_no_skip (epsilon_ij sigma_ij delta_r : ℚ) (n : ℕ) (r0 : ℚ)
    (h : ∀ k : ℕ, k < n → ¬ (r0 + k * delta_r ≤ 1e-10)) :
    dataLoop epsilon_ij sigma_ij delta_r n r0 =
      (List.range n).map fun k : ℕ => rowAt epsilon_ij sigma_ij (r0 + (k : ℚ) * delta_r) := by
  rw [dataLoop_eq_filterMap]
  have : ∀ k ∈ List.range n,
      (if r0 + (k : ℚ) * delta_r ≤ 1e-10 then none
        else some (rowAt epsilon_ij sigma_ij (r0 + k * delta_r))) =
      some (rowAt epsilon_ij sigma_ij (r0 + k * delta_r)) := by
    intro k hk
    exact if_neg (h k (List.mem_range.mp hk))
  rw [filterMapCongr _ this, filterMapSome]

/-- The number of rows a `filterMap`-style loop emits: the iteration count minus
the number of skipped iterations. -/
theorem length_filterMap_if {α β : Type} (c : α → Prop) [DecidablePred c] (g : α → β) :
    ∀ l : List α,
      (l.filterMap fun a => if c a then none else some (g a)).length =
        l.length - l.countP fun a => decide (c a) := by
  intro l
  induction l with
  | nil => rfl
  | cons x xs ih =>
    have hle : xs.countP (fun a => decide (c a)) ≤ xs.length := List.countP_le_length _
    by_cases h : c x
    · rw [List.filterMap_cons, if_pos h, List.countP_cons, ih]
      have hd : (if (fun a => decide (c a)) x = true then 1 else 0) = 1 := by simp [h]
      rw [hd, List.length_cons]
      omega
    · rw [List.filterMap_cons, if_neg h, List.countP_cons]
      have hd : (if (fun a => decide (c a)) x = true then 1 else 0) = 0 := by simp [h]
      rw [hd, List.length_cons, ih, List.length_cons]
      omega

theorem threshold_eq : (1e-10 : ℚ) = 1 / 10 ^ 10 := by norm_num

theorem lorentz_berthelot_self (a : Atom) (heps : 0 ≤ a.epsilon) :
    lorentz_berthelot a a = some (a.sigma, a.epsilon) := by
  unfold lorentz_berthelot
  rw [if_neg (not_lt.mpr (mul_self_nonneg a.epsilon)), Rat.sqrt_eq, abs_of_nonneg heps,
    show (a.sigma + a.sigma) / 2 = a.sigma by ring]

theorem lorentz_berthelot_zero_right (a b : Atom) (hb : b.epsilon = 0) :
    lorentz_berthelot a b = some ((a.sigma + b.sigma) / 2, 0) := by
  unfold lorentz_berthelot
  rw [hb, mul_zero, if_neg (lt_irrefl 0), sqrtZeroQ]

theorem headerName_rowAt (epsilon_ij sigma_ij r : ℚ) :
    headerName (rowAt epsilon_ij sigma_ij r) = none := rfl

theorem headerName_header (pn : String) : headerName (OutLine.header pn) = some pn := rfl

theorem headerName_row (r : ℚ) (E F : LJVal) : headerName (OutLine.row r E F) = none := rfl

theorem rowAt_zero_eps (sigma r : ℚ) (hr : r ≠ 0) :
    rowAt 0 sigma r = OutLine.row r (LJVal.fin 0) (LJVal.fin 0) := by
  unfold rowAt compute_lennard_jones
  rw [if_neg hr]
  norm_num

theorem pairBlock_eq (a1 a2 : Atom) (start_r delta_r : ℚ) (steps : ℤ) (sig eps : ℚ) (n : ℕ)
    (h : lorentz_berthelot a1 a2 = some (sig, eps)) (hn : (steps + 1).toNat = n) :
    pairBlock a1 a2 start_r delta_r steps =
      some (OutLine.header (a1.name ++ a2.name) :: dataLoop eps sig delta_r n start_r) := by
  unfold pairBlock
  rw [h, hn]

theorem writePairs_nil (start_r delta_r : ℚ) (steps : ℤ) :
    writePairs start_r delta_r steps [] = some [] := rfl

theorem writePairs_cons_eq (start_r delta_r : ℚ) (steps : ℤ) (a1 a2 : Atom)
    (ps : List (Atom × Atom)) (b out : List OutLine)
    (hb : pairBlock a1 a2 start_r delta_r steps = some b)
    (ho : writePairs start_r delta_r steps ps = some out) :
    writePairs start_r delta_r steps ((a1, a2) :: ps) = some (b ++ out) := by
  unfold writePairs
  rw [hb, ho]

theorem cwr2_two_mul_length {α : Type} (l : List α) :
    2 * (combinations_with_replacement2 l).length = l.length * (l.length + 1) := by
  induction l with
  | nil => rfl
  | cons x xs ih =>
    simp only [combinations_with_replacement2, List.length_append, List.length_map,
      List.length_cons]
    zify at ih ⊢
    linear_combination ih

/-- `combinations_with_replacement(l, 2)` has `n * (n + 1) / 2` elements. -/
theorem cwr2_length {α : Type} (l : List α) :
    (combinations_with_replacement2 l).length = l.length * (l.length + 1) / 2 := by
  have h := cwr2_two_mul_length l
  omega

theorem cwr2_map {α β : Type} (f : α → β) :
    ∀ l : List α, combinations_with_replacement2 (l.map f) =
      (combinations_with_replacement2 l).map (Prod.map f f) := by
  intro l
  induction l with
  | nil => rfl
  | cons x xs ih =>
    simp only [List.map_cons, combinations_with_replacement2, List.map_append, ih,
      List.map_map, Function.comp_def, Prod.map_apply]

theorem mem_cwr2 {α : Type} (p : α × α) :
    ∀ l : List α, p ∈ combinations_with_replacement2 l → p.1 ∈ l ∧ p.2 ∈ l := by
  intro l
  induction l with
  | nil => intro h; simp [combinations_with_replacement2] at h
  | cons x xs ih =>
    intro h
    rcases List.mem_append.mp h with h1 | h2
    · rcases List.mem_map.mp h1 with ⟨y, hy, hxy⟩
      refine hxy ▸ ⟨List.mem_cons_self x xs, hy⟩
    · exact ⟨List.mem_cons_of_mem x (ih h2).1, List.mem_cons_of_mem x (ih h2).2⟩

theorem cwr2_nodup {α : Type} : ∀ l : List α, l.Nodup → (combinations_with_replacement2 l).Nodup := by
  intro l
  induction l with
  | nil => intro _; exact List.nodup_nil
  | cons x xs ih =>
    intro h
    have hx : x ∉ xs := (List.nodup_cons.mp h).1
    have hxs : xs.Nodup := (List.nodup_cons.mp h).2
    refine List.Nodup.append ?_ (ih hxs) ?_
    · exact h.map fun a b hab => congrArg Prod.snd hab
    · intro p hp hq
      rcases List.mem_map.mp hp with ⟨y, _, hxy⟩
      have h1 : p.1 ∈ xs := (mem_cwr2 p xs hq).1
      rw [← hxy] at h1
      exact hx h1

theorem cwr2_range_mem : ∀ (n i j : ℕ),
    ((i, j) ∈ combinations_with_replacement2 (List.range n)) ↔ i ≤ j ∧ j < n := by
  intro n
  induction n with
  | zero => intro i j; simp [List.range_zero, combinations_with_replacement2]
  | succ n ih =>
    intro i j
    rw [List.range_succ_eq_map]
    show (i, j) ∈
        (0 :: (List.range n).map Nat.succ).map (fun y => ((0 : ℕ), y)) ++
          combinations_with_replacement2 ((List.range n).map Nat.succ) ↔ _
    rw [cwr2_map, List.mem_append, List.mem_map, List.mem_map]
    constructor
    · rintro (⟨y, hy, hxy⟩ | ⟨⟨a, b⟩, hab, hmap⟩)
      · rcases List.mem_cons.mp hy with rfl | hy2
        · cases hxy
          omega
        · rcases List.mem_map.mp hy2 with ⟨k, hk, rfl⟩
          cases hxy
          have := List.mem_range.mp hk
          omega
      · have hab2 := (ih a b).mp hab
        cases hmap
        omega
    · rintro ⟨hij, hjn⟩
      by_cases hi : i = 0
      · subst hi
        refine Or.inl ⟨j, ?_, rfl⟩
        rcases Nat.eq_zero_or_pos j with rfl | hj
        · exact List.mem_cons_self _ _
        · refine List.mem_cons_of_mem _ (List.mem_map.mpr ⟨j - 1, List.mem_range.mpr ?_, ?_⟩)
          · omega
          · omega
      · refine Or.inr ⟨(i - 1, j - 1), (ih (i - 1) (j - 1)).mpr ⟨by omega, by omega⟩, ?_⟩
        show (i - 1 + 1, j - 1 + 1) = (i, j)
        have hj1 : 1 ≤ j := le_trans (by omega) hij
        congr 1 <;> omega

theorem map_getD_range {α : Type} [Inhabited α] :
    ∀ l : List α, (List.range l.length).map (fun i => l.getD i default) = l := by
  intro l
  induction l with
  | nil => rfl
  | cons x xs ih =>
    rw [List.length_cons, List.range_succ_eq_map, List.map_cons, List.map_map]
    have h2 : ∀ i ∈ List.range xs.length,
        ((fun i => (x :: xs).getD i default) ∘ Nat.succ) i = xs.getD i default :=
      fun i _ => rfl
    rw [List.map_congr_left h2, ih]
    rfl

theorem dataLoop_no_header (epsilon_ij sigma_ij delta_r : ℚ) :
    ∀ (n : ℕ) (r : ℚ), (dataLoop epsilon_ij sigma_ij delta_r n r).filterMap headerName = [] := by
  intro n
  induction n with
  | zero => intro r; rfl
  | succ n ih =>
    intro r
    by_cases h : r ≤ 1e-10
    · rw [dataLoop_skip _ _ _ _ _ h, ih]
    · rw [dataLoop_emit _ _ _ _ _ h]
      simp [List.filterMap_cons, headerName_rowAt, ih]

theorem writePairs_headerName (start_r delta_r : ℚ) (steps : ℤ) :
    ∀ (ps : List (Atom × Atom)) (out : List OutLine),
      writePairs start_r delta_r steps ps = some out →
      out.filterMap headerName = ps.map fun p => p.1.name ++ p.2.name := by
  intro ps
  induction ps with
  | nil =>
    intro out h
    cases h
    rfl
  | cons p rest ih =>
    intro out h
    obtain ⟨a1, a2⟩ := p
    cases hpb : pairBlock a1 a2 start_r delta_r steps with
    | none =>
      unfold writePairs at h
      rw [hpb] at h
      cases h
    | some b =>
      cases hw2 : writePairs start_r delta_r steps rest with
      | none =>
        unfold writePairs at h
        rw [hpb, hw2] at h
        cases h
      | some out2 =>
        unfold writePairs at h
        rw [hpb, hw2] at h
        injection h with h
        subst h
        cases hlb : lorentz_berthelot a1 a2 with
        | none =>
          unfold pairBlock at hpb
          rw [hlb] at hpb
          cases hpb
        | some si_ep =>
          have hb := pairBlock_eq a1 a2 start_r delta_r steps si_ep.1 si_ep.2 _
            (by rw [hlb]) rfl
          rw [hpb] at hb
          injection hb with hb
          rw [hb, List.filterMap_append]
          simp [List.filterMap_cons, headerName_header, dataLoop_no_header, ih _ hw2]

/-- Claim C1: `compute_lennard_jones` is the pure function which, at `r = 0`,
returns the `(+inf, +inf)` sentinel pair, and otherwise returns
`E = 4*epsilon*(sr12 - sr6)` and `F = (24*epsilon/r)*(2*sr12 - sr6)` with
`sr6 = (sigma/r)^6` and `sr12 = sr6^2`.  Purity and determinism are inherent in
its embedding as a Lean function of its three arguments. -/
theorem claim_C1 (epsilon sigma r : ℚ) :
    compute_lennard_jones epsilon sigma r =
      if r = 0 then (LJVal.inf, LJVal.inf)
      else
        (LJVal.fin (4 * epsilon * (((sigma / r) ^ 6) ^ 2 - (sigma / r) ^ 6)),
         LJVal.fin (24 * epsilon / r * (2 * ((sigma / r) ^ 6) ^ 2 - (sigma / r) ^ 6))) := rfl

/-- Claim C4: Lorentz-Berthelot mixing is symmetric in its two atoms, in both
the sigma and the epsilon component (and in the raised-exception case). -/
theorem claim_C4 (a b : Atom) : lorentz_berthelot a b = lorentz_berthelot b a := by
  unfold lorentz_berthelot
  rw [mul_comm b.epsilon a.epsilon, add_comm b.sigma a.sigma]

/-- Claim C5: mixing an atom with non-negative parameters with itself returns
its own sigma and epsilon. -/
theorem claim_C5 (a : Atom) (heps : 0 ≤ a.epsilon) (hsig : 0 ≤ a.sigma) :
    lorentz_berthelot a a = some (a.sigma, a.epsilon) :=
  lorentz_berthelot_self a heps

/-- Witness for C5 at the configured oxygen atom. -/
theorem claim_C5_witness :
    (0 : ℚ) ≤ (107.0857 : ℚ) ∧ (0 : ℚ) ≤ (3.1665 : ℚ) ∧
      lorentz_berthelot ⟨("OW0"), 107.0857, 3.1665⟩ ⟨("OW0"), 107.0857, 3.1665⟩ =
        some (3.1665, 107.0857) :=
  ⟨by norm_num, by norm_num,
    claim_C5 ⟨("OW0"), 107.0857, 3.1665⟩ (by norm_num) (by norm_num)⟩

/-- Claim C10: a strictly negative epsilon product makes `math.sqrt` raise
(`none`); a non-negative product returns normally with the mixed pair. -/
theorem claim_C10 (a b : Atom) :
    (a.epsilon * b.epsilon < 0 → lorentz_berthelot a b = none) ∧
    (0 ≤ a.epsilon * b.epsilon →
      lorentz_berthelot a b =
        some ((a.sigma + b.sigma) / 2, Rat.sqrt (a.epsilon * b.epsilon))) := by
  constructor
  · intro h
    unfold lorentz_berthelot
    rw [if_pos h]
  · intro h
    unfold lorentz_berthelot
    rw [if_neg (not_lt.mpr h)]

/-- Witness for C10: a mixed-sign pair raises, a like-sign pair returns. -/
theorem claim_C10_witness :
    ((-1 : ℚ) * 2 < 0 ∧ lorentz_berthelot ⟨("A"), -1, 0⟩ ⟨("B"), 2, 0⟩ = none) ∧
    ((0 : ℚ) ≤ 1 * 1 ∧ lorentz_berthelot ⟨("A"), 1, 0⟩ ⟨("B"), 1, 1⟩ =
      some ((0 + 1) / 2, Rat.sqrt (1 * 1))) :=
  ⟨⟨by norm_num, (claim_C10 ⟨("A"), -1, 0⟩ ⟨("B"), 2, 0⟩).1 (by norm_num)⟩,
   ⟨by norm_num, (claim_C10 ⟨("A"), 1, 0⟩ ⟨("B"), 1, 1⟩).2 (by norm_num)⟩⟩

/-- Claim C8: the two-atom end-to-end scenario on the grid `1.0 .. 2.0` with
step `0.5`: three pair blocks named `OW0OW0`, `OW0HW0`, `HW0HW0` (12 output
lines in all), the mixed epsilon of the `HW0` self-pair is `0`, and every data
row of the final `HW0HW0` block carries `E = 0` and `F = 0`. -/
theorem claim_C8 :
    lorentz_berthelot ⟨("HW0"), 0, 0⟩ ⟨("HW0"), 0, 0⟩ = some (0, 0) ∧
    (generate_interaction_tables
        [⟨("OW0"), 107.0857, 3.1665⟩, ⟨("HW0"), 0, 0⟩] 1 2 (1 / 2)).map
      (fun out => (out.filterMap headerName, out.length, out.drop 8)) =
      some (["OW0OW0", "OW0HW0", "HW0HW0"], 12,
        [OutLine.header ("HW0HW0"),
         OutLine.row 1 (LJVal.fin 0) (LJVal.fin 0),
         OutLine.row (3 / 2) (LJVal.fin 0) (LJVal.fin 0),
         OutLine.row 2 (LJVal.fin 0) (LJVal.fin 0)]) := by
  have hlbHH : lorentz_berthelot ⟨("HW0"), 0, 0⟩ ⟨("HW0"), 0, 0⟩ = some ((0 + 0) / 2, 0) :=
    lorentz_berthelot_zero_right _ _ rfl
  have hsteps : stepsOf 1 2 (1 / 2) = 2 := by
    unfold stepsOf pytrunc
    norm_num
  have hns : ∀ k : ℕ, k < 3 → ¬ ((1 : ℚ) + k * (1 / 2) ≤ 1e-10) := by
    intro k _ hle
    rw [threshold_eq] at hle
    have hk0 : (0 : ℚ) ≤ (k : ℚ) := Nat.cast_nonneg k
    nlinarith
  have hloop : ∀ eps sig : ℚ, dataLoop eps sig (1 / 2) 3 1 =
      [rowAt eps sig 1, rowAt eps sig (3 / 2), rowAt eps sig 2] := by
    intro eps sig
    rw [dataLoop_no_skip eps sig (1 / 2) 3 1 hns]
    norm_num [List.range_succ]
  have hlbOO : lorentz_berthelot ⟨("OW0"), 107.0857, 3.1665⟩ ⟨("OW0"), 107.0857, 3.1665⟩ =
      some (3.1665, 107.0857) := lorentz_berthelot_self _ (by norm_num)
  have hlbOH : lorentz_berthelot ⟨("OW0"), 107.0857, 3.1665⟩ ⟨("HW0"), 0, 0⟩ =
      some ((3.1665 + 0) / 2, 0) := lorentz_berthelot_zero_right _ _ rfl
  have hbOO := pairBlock_eq _ _ 1 (1 / 2) 2 _ _ 3 hlbOO (by rfl)
  have hbOH := pairBlock_eq _ _ 1 (1 / 2) 2 _ _ 3 hlbOH (by rfl)
  have hbHH := pairBlock_eq _ _ 1 (1 / 2) 2 _ _ 3 hlbHH (by rfl)
  rw [hloop] at hbOO hbOH hbHH
  have hw := writePairs_cons_eq 1 (1 / 2) 2 _ _ _ _ _ hbOO
    (writePairs_cons_eq 1 (1 / 2) 2 _ _ _ _ _ hbOH
      (writePairs_cons_eq 1 (1 / 2) 2 _ _ _ _ _ hbHH (writePairs_nil 1 (1 / 2) 2)))
  refine ⟨hlbHH.trans (by norm_num), ?_⟩
  unfold generate_interaction_tables
  rw [if_neg (by norm_num : ¬ ((1 : ℚ) / 2 = 0)), hsteps,
    show combinations_with_replacement2
        [(⟨("OW0"), 107.0857, 3.1665⟩ : Atom), ⟨("HW0"), 0, 0⟩] =
      [(⟨("OW0"), 107.0857, 3.1665⟩, ⟨("OW0"), 107.0857, 3.1665⟩),
       (⟨("OW0"), 107.0857, 3.1665⟩, ⟨("HW0"), 0, 0⟩),
       (⟨("HW0"), 0, 0⟩, ⟨("HW0"), 0, 0⟩)] by
      simp [combinations_with_replacement2],
    hw, Option.map_some']
  rw [rowAt_zero_eps ((0 + 0) / 2) 1 (by norm_num),
    rowAt_zero_eps ((0 + 0) / 2) (3 / 2) (by norm_num),
    rowAt_zero_eps ((0 + 0) / 2) 2 (by norm_num)]
  simp [List.filterMap_cons, headerName_rowAt, headerName_header, headerName_row]

/-- Claim C9: with a non-zero step the writer is total: the `steps` value is
computed (no `ZeroDivisionError`), the per-pair loop runs exactly
`max(steps + 1, 0)` iterations, and a non-positive `steps + 1` (e.g. a negative
step with `end > start`) yields a block consisting of the header alone. -/
theorem claim_C9 (start_r end_r delta_r : ℚ) (hd : delta_r ≠ 0) :
    (∀ l, generate_interaction_tables l start_r end_r delta_r =
      writePairs start_r delta_r (stepsOf start_r end_r delta_r)
        (combinations_with_replacement2 l)) ∧
    ((stepsOf start_r end_r delta_r + 1).toNat : ℤ) =
      max (stepsOf start_r end_r delta_r + 1) 0 ∧
    (∀ a1 a2 si_ep, lorentz_berthelot a1 a2 = some si_ep →
      pairBlock a1 a2 start_r delta_r (stepsOf start_r end_r delta_r) =
        some (OutLine.header (a1.name ++ a2.name) ::
          dataLoop si_ep.2 si_ep.1 delta_r
            (stepsOf start_r end_r delta_r + 1).toNat start_r)) ∧
    (stepsOf start_r end_r delta_r + 1 ≤ 0 →
      ∀ a1 a2 si_ep, lorentz_berthelot a1 a2 = some si_ep →
        pairBlock a1 a2 start_r delta_r (stepsOf start_r end_r delta_r) =
          some [OutLine.header (a1.name ++ a2.name)]) := by
  refine ⟨?_, Int.toNat_eq_max _, ?_, ?_⟩
  · intro l
    unfold generate_interaction_tables
    rw [if_neg hd]
  · intro a1 a2 si_ep h
    unfold pairBlock
    rw [h]
  · intro hneg a1 a2 si_ep h
    unfold pairBlock
    rw [h, Int.toNat_of_nonpos hneg]
    rfl

/-- Witness for C9: a negative step with `end > start` gives `steps + 1 = 0`
and a header-only block. -/
theorem stepsOf_neg_step : stepsOf 0 1 (-1) = -1 := by
  unfold stepsOf pytrunc
  rw [show ((1 : ℚ) - 0) / (-1) = ((-1 : ℤ) : ℚ) by norm_num,
    if_pos (by norm_num : (((-1 : ℤ) : ℚ)) < 0), Int.ceil_intCast]

theorem lb_zero_self : lorentz_berthelot ⟨("A"), 0, 0⟩ ⟨("A"), 0, 0⟩ = some (0, 0) :=
  (lorentz_berthelot_zero_right _ _ rfl).trans (by norm_num)

theorem claim_C9_witness :
    ((-1 : ℚ) ≠ 0 ∧ stepsOf 0 1 (-1) + 1 ≤ 0 ∧
      lorentz_berthelot ⟨("A"), 0, 0⟩ ⟨("A"), 0, 0⟩ = some (0, 0)) ∧
    pairBlock ⟨("A"), 0, 0⟩ ⟨("A"), 0, 0⟩ 0 (-1) (stepsOf 0 1 (-1)) =
      some [OutLine.header ("AA")] :=
  ⟨⟨by norm_num, by rw [stepsOf_neg_step]; norm_num, lb_zero_self⟩,
    (claim_C9 0 1 (-1) (by norm_num)).2.2.2 (by rw [stepsOf_neg_step]; norm_num)
      ⟨("A"), 0, 0⟩ ⟨("A"), 0, 0⟩ (0, 0) lb_zero_self⟩

/-- Claim C2: the writer enumerates exactly `N(N+1)/2` unordered pairs (self-pairs
included), each index pair `i ≤ j` exactly once and in enumeration order, and a
successful run emits exactly one `TYPE` header per pair whose name is the
concatenation of the two atom names in enumeration order. -/
theorem claim_C2 (l : List Atom) (start_r end_r delta_r : ℚ) :
    (combinations_with_replacement2 l).length = l.length * (l.length + 1) / 2 ∧
    combinations_with_replacement2 l =
      (combinations_with_replacement2 (List.range l.length)).map
        (fun ij => (l.getD ij.1 default, l.getD ij.2 default)) ∧
    (combinations_with_replacement2 (List.range l.length)).Nodup ∧
    (∀ i j : ℕ, ((i, j) ∈ combinations_with_replacement2 (List.range l.length)) ↔
      i ≤ j ∧ j < l.length) ∧
    (∀ out, generate_interaction_tables l start_r end_r delta_r = some out →
      out.filterMap headerName =
        (combinations_with_replacement2 l).map fun p => p.1.name ++ p.2.name) := by
  refine ⟨cwr2_length l, ?_, cwr2_nodup _ (List.nodup_range _), fun i j => cwr2_range_mem _ i j, ?_⟩
  · conv_lhs => rw [← map_getD_range l]
    rw [cwr2_map]
    rfl
  · intro out hout
    unfold generate_interaction_tables at hout
    by_cases hd : delta_r = 0
    · rw [if_pos hd] at hout
      cases hout
    · rw [if_neg hd] at hout
      exact writePairs_headerName _ _ _ _ _ hout

theorem generateSmallEval :
    generate_interaction_tables [⟨("A"), 0, 0⟩] 1 1 1 =
      some [OutLine.header ("AA"), OutLine.row 1 (LJVal.fin 0) (LJVal.fin 0)] := by
  have hsteps : stepsOf 1 1 1 = 0 := by
    unfold stepsOf pytrunc
    norm_num
  have hloop : dataLoop 0 0 1 1 1 = [OutLine.row 1 (LJVal.fin 0) (LJVal.fin 0)] := by
    rw [dataLoop_emit 0 0 1 0 1 (by rw [threshold_eq]; norm_num), dataLoop_zero,
      rowAt_zero_eps 0 1 (by norm_num)]
  have hb := pairBlock_eq ⟨("A"), 0, 0⟩ ⟨("A"), 0, 0⟩ 1 1 0 0 0 1 lb_zero_self (by rfl)
  rw [hloop] at hb
  have hw := writePairs_cons_eq 1 1 0 _ _ _ _ _ hb (writePairs_nil 1 1 0)
  unfold generate_interaction_tables
  rw [if_neg (by norm_num : ¬ ((1 : ℚ) = 0)), hsteps,
    show combinations_with_replacement2 [(⟨("A"), 0, 0⟩ : Atom)] =
      [(⟨("A"), 0, 0⟩, ⟨("A"), 0, 0⟩)] by simp [combinations_with_replacement2],
    hw]
  rfl

/-- Witness for C2 on a one-atom list: one pair, one header line `TYPE AA`. -/
theorem claim_C2_witness :
    generate_interaction_tables [⟨("A"), 0, 0⟩] 1 1 1 =
      some [OutLine.header ("AA"), OutLine.row 1 (LJVal.fin 0) (LJVal.fin 0)] ∧
    (combinations_with_replacement2 [(⟨("A"), 0, 0⟩ : Atom)]).length = 1 ∧
    [OutLine.header ("AA"),
      OutLine.row (1 : ℚ) (LJVal.fin 0) (LJVal.fin 0)].filterMap headerName =
      (combinations_with_replacement2 [(⟨("A"), 0, 0⟩ : Atom)]).map
        fun p => p.1.name ++ p.2.name :=
  ⟨generateSmallEval, (claim_C2 [⟨("A"), 0, 0⟩] 1 1 1).1,
    (claim_C2 [⟨("A"), 0, 0⟩] 1 1 1).2.2.2.2 _ generateSmallEval⟩

/-- Counterexample to C3 as stated: with step `1 > 0`, start `2` and end `1/2`,
the quotient `(end - start) / step = -3/2` makes the code's `int()` truncation
(`-1`) differ from the claimed `floor` (`-2`). -/
theorem claim_C3_counterexample :
    (0 : ℚ) < 1 ∧ stepsOf 2 (1 / 2) 1 = -1 ∧ ⌊(((1 : ℚ) / 2) - 2) / 1⌋ = -2 := by
  refine ⟨by norm_num, ?_, by norm_num⟩
  unfold stepsOf pytrunc
  rw [if_pos (by norm_num : ((1 : ℚ) / 2 - 2) / 1 < 0), Int.ceil_eq_iff]
  norm_num

/-- Claim C3 (amended): with step `> 0`, `steps` is the truncation toward zero of
`(end - start) / step` — which agrees with the claimed `floor` whenever
`start ≤ end` — the per-pair loop visits the samples `start + k * step` for
`k < (steps + 1).toNat`, skipping (while still advancing) exactly those with
`r ≤ 1e-10`, so the rows emitted per pair number the iterations minus the
skipped samples. -/
theorem claim_C3 (start_r end_r delta_r : ℚ) (hd : 0 < delta_r) :
    (start_r ≤ end_r → stepsOf start_r end_r delta_r = ⌊(end_r - start_r) / delta_r⌋) ∧
    (∀ epsilon_ij sigma_ij : ℚ,
      dataLoop epsilon_ij sigma_ij delta_r (stepsOf start_r end_r delta_r + 1).toNat start_r =
        (List.range (stepsOf start_r end_r delta_r + 1).toNat).filterMap fun k : ℕ =>
          if start_r + (k : ℚ) * delta_r ≤ 1e-10 then none
          else some (rowAt epsilon_ij sigma_ij (start_r + (k : ℚ) * delta_r))) ∧
    (∀ epsilon_ij sigma_ij : ℚ,
      (dataLoop epsilon_ij sigma_ij delta_r
          (stepsOf start_r end_r delta_r + 1).toNat start_r).length =
        (stepsOf start_r end_r delta_r + 1).toNat -
          (List.range (stepsOf start_r end_r delta_r + 1).toNat).countP
            fun k : ℕ => decide (start_r + (k : ℚ) * delta_r ≤ 1e-10)) := by
  refine ⟨?_, ?_, ?_⟩
  · intro hse
    unfold stepsOf pytrunc
    rw [if_neg (not_lt.mpr (div_nonneg (sub_nonneg.mpr hse) (le_of_lt hd)))]
  · intro epsilon_ij sigma_ij
    exact dataLoop_eq_filterMap epsilon_ij sigma_ij delta_r _ start_r
  · intro epsilon_ij sigma_ij
    rw [dataLoop_eq_filterMap epsilon_ij sigma_ij delta_r _ start_r,
      length_filterMap_if (fun k : ℕ => start_r + (k : ℚ) * delta_r ≤ 1e-10)
        (fun k : ℕ => rowAt epsilon_ij sigma_ij (start_r + (k : ℚ) * delta_r))]
    rw [List.length_range]

/-- Witness for C3 on the grid `0 .. 1` with step `1`: two iterations, the
sample at `r = 0` is skipped, one row remains. -/
theorem claim_C3_witness :
    (0 : ℚ) < 1 ∧ stepsOf 0 1 1 = ⌊((1 : ℚ) - 0) / 1⌋ ∧
    (dataLoop 0 0 1 (stepsOf 0 1 1 + 1).toNat 0).length =
      (stepsOf 0 1 1 + 1).toNat -
        (List.range (stepsOf 0 1 1 + 1).toNat).countP
          fun k : ℕ => decide ((0 : ℚ) + (k : ℚ) * 1 ≤ 1e-10) :=
  ⟨by norm_num, (claim_C3 0 1 1 (by norm_num)).1 (by norm_num),
    (claim_C3 0 1 1 (by norm_num)).2.2 0 0⟩

theorem ljust_length (w : ℕ) (s : String) : (ljust w s).length = max w s.length := by
  unfold ljust
  rw [String.length_append]
  have hm : (String.mk (List.replicate (w - s.length) ' ')).length = w - s.length := by
    show (List.replicate (w - s.length) ' ').length = _
    rw [List.length_replicate]
  rw [hm]
  omega

/-- Claim C6: every line a successful run emits is either a pair header rendered
as `TYPE` followed by the pair name, or a data row rendered as the distance
left-justified in a 10-character field with 4 decimal places, one space, the
energy left-justified in a 15-character field with 6 decimal places, one space,
and the force likewise; no other kind of line (column header, parameter summary)
exists in the active code path. -/
theorem claim_C6 (l : List Atom) (start_r end_r delta_r : ℚ) (out : List OutLine)
    (hout : generate_interaction_tables l start_r end_r delta_r = some out) :
    ∀ line ∈ out,
      (∃ pn, line = OutLine.header pn ∧ renderLine line = ("TYPE ") ++ pn) ∨
      (∃ r E F, line = OutLine.row r E F ∧
        renderLine line =
          ljust 10 (fixedRepr 4 r) ++ (" ") ++ pyFmtVal 15 6 E ++ (" ") ++ pyFmtVal 15 6 F ∧
        (ljust 10 (fixedRepr 4 r)).length = max 10 (fixedRepr 4 r).length ∧
        (∀ x : ℚ, E = LJVal.fin x → pyFmtVal 15 6 E = ljust 15 (fixedRepr 6 x) ∧
          (ljust 15 (fixedRepr 6 x)).length = max 15 (fixedRepr 6 x).length) ∧
        (∀ x : ℚ, F = LJVal.fin x → pyFmtVal 15 6 F = ljust 15 (fixedRepr 6 x) ∧
          (ljust 15 (fixedRepr 6 x)).length = max 15 (fixedRepr 6 x).length)) := by
  intro line _
  cases line with
  | header pn => exact Or.inl ⟨pn, rfl, rfl⟩
  | row r E F =>
    refine Or.inr ⟨r, E, F, rfl, rfl, ljust_length _ _, ?_, ?_⟩
    · intro x hx
      subst hx
      exact ⟨rfl, ljust_length _ _⟩
    · intro x hx
      subst hx
      exact ⟨rfl, ljust_length _ _⟩

/-- Witness for C6 at a one-atom run, checked on its data row. -/
theorem claim_C6_witness :
    generate_interaction_tables [⟨("A"), 0, 0⟩] 1 1 1 =
      some [OutLine.header ("AA"), OutLine.row 1 (LJVal.fin 0) (LJVal.fin 0)] ∧
    ((∃ pn, OutLine.row (1 : ℚ) (LJVal.fin 0) (LJVal.fin 0) = OutLine.header pn ∧
        renderLine (OutLine.row (1 : ℚ) (LJVal.fin 0) (LJVal.fin 0)) = ("TYPE ") ++ pn) ∨
     (∃ r E F, OutLine.row (1 : ℚ) (LJVal.fin 0) (LJVal.fin 0) = OutLine.row r E F ∧
        renderLine (OutLine.row (1 : ℚ) (LJVal.fin 0) (LJVal.fin 0)) =
          ljust 10 (fixedRepr 4 r) ++ (" ") ++ pyFmtVal 15 6 E ++ (" ") ++ pyFmtVal 15 6 F ∧
        (ljust 10 (fixedRepr 4 r)).length = max 10 (fixedRepr 4 r).length ∧
        (∀ x : ℚ, E = LJVal.fin x → pyFmtVal 15 6 E = ljust 15 (fixedRepr 6 x) ∧
          (ljust 15 (fixedRepr 6 x)).length = max 15 (fixedRepr 6 x).length) ∧
        (∀ x : ℚ, F = LJVal.fin x → pyFmtVal 15 6 F = ljust 15 (fixedRepr 6 x) ∧
          (ljust 15 (fixedRepr 6 x)).length = max 15 (fixedRepr 6 x).length))) :=
  ⟨generateSmallEval,
    claim_C6 [⟨("A"), 0, 0⟩] 1 1 1 _ generateSmallEval
      (OutLine.row (1 : ℚ) (LJVal.fin 0) (LJVal.fin 0)) (by simp)⟩

theorem roundHalfEven_intCast (z : ℤ) : roundHalfEven ((z : ℚ)) = z := by
  unfold roundHalfEven
  rw [Int.floor_intCast]
  have h : ((z : ℚ)) - ((z : ℤ) : ℚ) < 1 / 2 := by
    rw [sub_self]
    norm_num
  rw [if_pos h]

theorem fixedRepr_eval (p : ℕ) (x : ℚ) (z : ℤ) (h : x * 10 ^ p = (z : ℚ)) :
    fixedRepr p x =
      (if z < 0 then ("-") else ("")) ++ toString (z.natAbs / 10 ^ p) ++ ("." : String) ++
        zeroPad p (z.natAbs % 10 ^ p) := by
  unfold fixedRepr
  rw [h, roundHalfEven_intCast]

/-- Claim C7: on the configured grid `start=0.01, end=10.0, step=0.01` the loop
makes `steps + 1 = 1000` iterations, no sample falls at or below `1e-10`, every
pair's loop emits exactly 1000 rows, the first at distance `0.01` (printed
`0.0100`) and the last at distance `10` (printed `10.0000`). -/
theorem claim_C7 :
    stepsOf start_dist end_dist delta_r = 999 ∧
    (stepsOf start_dist end_dist delta_r + 1).toNat = 1000 ∧
    ((List.range 1000).countP fun k : ℕ => decide (start_dist + (k : ℚ) * delta_r ≤ 1e-10)) = 0 ∧
    (∀ epsilon_ij sigma_ij : ℚ,
      (dataLoop epsilon_ij sigma_ij delta_r 1000 start_dist).length = 1000 ∧
      (dataLoop epsilon_ij sigma_ij delta_r 1000 start_dist).head? =
        some (rowAt epsilon_ij sigma_ij start_dist) ∧
      (dataLoop epsilon_ij sigma_ij delta_r 1000 start_dist).getLast? =
        some (rowAt epsilon_ij sigma_ij 10)) ∧
    fixedRepr 4 start_dist = ("0.0100") ∧ fixedRepr 4 (10 : ℚ) = ("10.0000") := by
  have hsteps : stepsOf start_dist end_dist delta_r = 999 := by
    unfold start_dist end_dist delta_r stepsOf pytrunc
    norm_num
  have hns : ∀ k : ℕ, k < 1000 → ¬ (start_dist + (k : ℚ) * delta_r ≤ 1e-10) := by
    intro k _ hle
    unfold start_dist delta_r at hle
    rw [threshold_eq] at hle
    simp only [show (0.01 : ℚ) = 1 / 100 by norm_num] at hle
    have hk0 : (0 : ℚ) ≤ (k : ℚ) := Nat.cast_nonneg k
    nlinarith
  have hmap : ∀ epsilon_ij sigma_ij : ℚ,
      dataLoop epsilon_ij sigma_ij delta_r 1000 start_dist =
        (List.range 1000).map fun k : ℕ =>
          rowAt epsilon_ij sigma_ij (start_dist + (k : ℚ) * delta_r) :=
    fun epsilon_ij sigma_ij => dataLoop_no_skip epsilon_ij sigma_ij delta_r 1000 start_dist hns
  refine ⟨hsteps, by rw [hsteps]; rfl, ?_, ?_, ?_, ?_⟩
  · rw [List.countP_eq_zero]
    intro k hk
    simp only [decide_eq_true_eq]
    exact hns k (List.mem_range.mp hk)
  · intro epsilon_ij sigma_ij
    refine ⟨?_, ?_, ?_⟩
    · rw [hmap, List.length_map, List.length_range]
    · rw [hmap, show (1000 : ℕ) = 999 + 1 from rfl, List.range_succ_eq_map, List.map_cons,
        List.head?_cons]
      have : start_dist + ((0 : ℕ) : ℚ) * delta_r = start_dist := by
        push_cast
        ring
      rw [this]
    · rw [hmap, show (1000 : ℕ) = 999 + 1 from rfl, List.range_succ, List.map_append,
        List.map_singleton, List.getLast?_concat]
      have : start_dist + ((999 : ℕ) : ℚ) * delta_r = 10 := by
        unfold start_dist delta_r
        norm_num
      rw [this]
  · rw [show start_dist = (0.01 : ℚ) from rfl, fixedRepr_eval 4 (0.01 : ℚ) 100 (by norm_num)]
    decide
  · rw [fixedRepr_eval 4 (10 : ℚ) 100000 (by norm_num)]
    decide

end TableGen
